import Mathlib

/-!
Verification development for `landlensdb`, a geospatial image handling
library.  The repository ships its documentation, notebooks and packaging
under `src/`, but the Python modules themselves
(`landlensdb/geoclasses/geoimageframe.py`, `landlensdb/handlers/image.py`,
`landlensdb/handlers/cloud.py`, `landlensdb/handlers/db.py`,
`landlensdb/process/snap.py`) are not present; only their callers and
documentation are.  The operations below are therefore modelled from the
specification and the repository documentation, as marked on each
definition.
-/

namespace Landlensdb

/-- A planar point with rational coordinates, standing in for a Shapely
`Point` geometry. -/
structure GeoPoint where
  x : ℚ
  y : ℚ
deriving DecidableEq, Repr

/-- Squared Euclidean distance between two points. -/
def distSq (p q : GeoPoint) : ℚ :=
  (p.x - q.x) ^ 2 + (p.y - q.y) ^ 2

/-- An edge of a road-network graph: a straight segment between two
endpoints. -/
structure Edge where
  a : GeoPoint
  b : GeoPoint
deriving DecidableEq, Repr

/-- Modelled from the spec (missing module `landlensdb/process/snap.py`):
the orthogonal projection of a point onto an edge, clamped to the segment
(Shapely `interpolate`/`project` on a line segment). -/
def projectOntoEdge (p : GeoPoint) (e : Edge) : GeoPoint :=
  let dx := e.b.x - e.a.x
  let dy := e.b.y - e.a.y
  let len2 := dx ^ 2 + dy ^ 2
  if len2 = 0 then e.a
  else
    let t := max 0 (min 1 (((p.x - e.a.x) * dx + (p.y - e.a.y) * dy) / len2))
    ⟨e.a.x + t * dx, e.a.y + t * dy⟩

/-- Squared distance from a point to an edge, i.e. to the point's clamped
projection onto that edge. -/
def edgeDistSq (p : GeoPoint) (e : Edge) : ℚ :=
  distSq p (projectOntoEdge p e)

/-- Modelled from the spec (missing `landlensdb/process/snap.py`): the
nearest edge of a road network to a point (nearest-neighbour lookup over
the network's edges), `none` on an empty network. -/
def nearestEdge (p : GeoPoint) : List Edge → Option Edge
  | [] => none
  | e :: es =>
    match nearestEdge p es with
    | none => some e
    | some best => if edgeDistSq p e ≤ edgeDistSq p best then some e else some best

/-- Modelled from the spec (missing `landlensdb/process/snap.py`): snapping
of a single point: project it onto the nearest edge of the network when
that edge is within the distance threshold, otherwise produce nothing. -/
def snapPoint (p : GeoPoint) (threshold : ℚ) (network : List Edge) : Option GeoPoint :=
  match nearestEdge p network with
  | none => none
  | some e =>
    if edgeDistSq p e ≤ threshold ^ 2 then some (projectOntoEdge p e) else none

theorem nearestEdge_ne_none {p : GeoPoint} {hd : Edge} {tl : List Edge} :
    nearestEdge p (hd :: tl) ≠ none := by
  simp only [nearestEdge]
  cases nearestEdge p tl with
  | none => simp
  | some best =>
    by_cases hle : edgeDistSq p hd ≤ edgeDistSq p best <;> simp [hle]

theorem nearestEdge_mem {p : GeoPoint} {net : List Edge} {e : Edge}
    (h : nearestEdge p net = some e) : e ∈ net := by
  induction net generalizing e with
  | nil => simp [nearestEdge] at h
  | cons hd tl ih =>
    simp only [nearestEdge] at h
    cases htl : nearestEdge p tl with
    | none =>
      rw [htl] at h
      simp only [Option.some.injEq] at h
      simp [← h]
    | some best =>
      rw [htl] at h
      by_cases hle : edgeDistSq p hd ≤ edgeDistSq p best
      · simp only [hle, if_pos, Option.some.injEq] at h
        simp [← h]
      · simp only [hle, if_neg, not_false_iff, Option.some.injEq] at h
        subst h
        exact List.mem_cons_of_mem _ (ih htl)

theorem nearestEdge_min {p : GeoPoint} {net : List Edge} {e : Edge}
    (h : nearestEdge p net = some e) :
    ∀ e2 ∈ net, edgeDistSq p e ≤ edgeDistSq p e2 := by
  induction net generalizing e with
  | nil => simp [nearestEdge] at h
  | cons hd tl ih =>
    intro e2 he2
    simp only [nearestEdge] at h
    cases htl : nearestEdge p tl with
    | none =>
      rw [htl] at h
      simp only [Option.some.injEq] at h
      subst h
      rcases List.mem_cons.mp he2 with h2 | h2
      · subst h2; exact le_refl _
      · cases tl with
        | nil => simp at h2
        | cons x xs => exact absurd htl nearestEdge_ne_none
    | some best =>
      rw [htl] at h
      have hbest := ih htl
      by_cases hle : edgeDistSq p hd ≤ edgeDistSq p best
      · simp only [hle, if_pos, Option.some.injEq] at h
        subst h
        rcases List.mem_cons.mp he2 with h2 | h2
        · subst h2; exact le_refl _
        · exact le_trans hle (hbest e2 h2)
      · simp only [hle, if_neg, not_false_iff, Option.some.injEq] at h
        subst h
        rcases List.mem_cons.mp he2 with h2 | h2
        · subst h2; exact le_of_not_le hle
        · exact hbest e2 h2

theorem snapPoint_spec {p : GeoPoint} {t : ℚ} {net : List Edge} {q : GeoPoint}
    (h : snapPoint p t net = some q) :
    ∃ e ∈ net, q = projectOntoEdge p e ∧ edgeDistSq p e ≤ t ^ 2 ∧
      ∀ e2 ∈ net, edgeDistSq p e ≤ edgeDistSq p e2 := by
  unfold snapPoint at h
  cases hne : nearestEdge p net with
  | none => rw [hne] at h; simp at h
  | some e =>
    rw [hne] at h
    by_cases hle : edgeDistSq p e ≤ t ^ 2
    · simp only [hle, if_pos, Option.some.injEq] at h
      exact ⟨e, nearestEdge_mem hne, h.symm, hle, nearestEdge_min hne⟩
    · simp [hle] at h

theorem snapPoint_none_of_far {p : GeoPoint} {t : ℚ} {net : List Edge}
    (h : ∀ e ∈ net, t ^ 2 < edgeDistSq p e) : snapPoint p t net = none := by
  unfold snapPoint
  cases hne : nearestEdge p net with
  | none => rfl
  | some e =>
    have := h e (nearestEdge_mem hne)
    simp [not_le.mpr this]

/-- A cell of a dataframe: a string, a number, a point geometry, or null. -/
inductive CellValue where
  | str : String → CellValue
  | num : ℚ → CellValue
  | pt : GeoPoint → CellValue
  | null : CellValue
deriving DecidableEq, Repr

/-- A dataframe row: an association list from column name to cell value. -/
abbrev Row := List (String × CellValue)

/-- The value of column `c` in row `r`, when the column is present. -/
def getCol (r : Row) (c : String) : Option CellValue :=
  (r.find? (fun kv => kv.1 == c)).map Prod.snd

/-- Write value `v` to column `c` of row `r`: replace the column in place
when it exists, append it as a new column otherwise (pandas-style column
assignment). -/
def setCol (r : Row) (c : String) (v : CellValue) : Row :=
  if r.any (fun kv => kv.1 == c) then
    r.map (fun kv => if kv.1 == c then (c, v) else kv)
  else r ++ [(c, v)]

theorem getCol_map_set_self {c : String} {v : CellValue} (r : Row)
    (ha : r.any (fun kv => kv.1 == c) = true) :
    getCol (r.map (fun kv => if kv.1 == c then (c, v) else kv)) c = some v := by
  induction r with
  | nil => simp at ha
  | cons kv rest ih =>
    by_cases hk : (kv.1 == c) = true
    · simp [getCol, List.find?, hk]
    · have hrest : rest.any (fun kv => kv.1 == c) = true := by
        simp only [List.any_cons, hk, Bool.false_or] at ha
        exact ha
      simpa [getCol, List.find?, hk] using ih hrest

theorem getCol_append_single_self {c : String} {v : CellValue} (r : Row)
    (ha : r.any (fun kv => kv.1 == c) = false) :
    getCol (r ++ [(c, v)]) c = some v := by
  induction r with
  | nil => simp [getCol, List.find?]
  | cons kv rest ih =>
    simp only [List.any_cons, Bool.or_eq_false_iff] at ha
    simpa [getCol, List.find?, ha.1] using ih ha.2

theorem getCol_setCol_self (r : Row) (c : String) (v : CellValue) :
    getCol (setCol r c v) c = some v := by
  unfold setCol
  by_cases ha : r.any (fun kv => kv.1 == c) = true
  · simpa [ha] using getCol_map_set_self r ha
  · have ha2 : r.any (fun kv => kv.1 == c) = false := Bool.eq_false_iff.mpr ha
    simpa [ha2] using getCol_append_single_self r ha2

theorem getCol_map_set_ne {c c2 : String} {v : CellValue} (r : Row) (h : c ≠ c2) :
    getCol (r.map (fun kv => if kv.1 == c then (c, v) else kv)) c2 = getCol r c2 := by
  have hcc2 : (c == c2) = false := by simpa using h
  induction r with
  | nil => simp [getCol]
  | cons kv rest ih =>
    by_cases hk : (kv.1 == c) = true
    · have hk2 : (kv.1 == c2) = false := by
        have : kv.1 = c := by simpa using hk
        simpa [this] using h
      simpa [getCol, List.find?, hk, hcc2, hk2] using ih
    · by_cases hk2 : (kv.1 == c2) = true
      · simp [getCol, List.find?, hk, hk2]
      · simpa [getCol, List.find?, hk, hk2] using ih

theorem getCol_append_single_ne {c c2 : String} {v : CellValue} (r : Row) (h : c ≠ c2) :
    getCol (r ++ [(c, v)]) c2 = getCol r c2 := by
  have hcc2 : (c == c2) = false := by simpa using h
  induction r with
  | nil => simp [getCol, List.find?, hcc2]
  | cons kv rest ih =>
    by_cases hk : (kv.1 == c2) = true
    · simp [getCol, List.find?, hk]
    · simpa [getCol, List.find?, hk] using ih

theorem getCol_setCol_ne (r : Row) {c c2 : String} (v : CellValue) (h : c ≠ c2) :
    getCol (setCol r c v) c2 = getCol r c2 := by
  unfold setCol
  by_cases ha : r.any (fun kv => kv.1 == c) = true
  · simpa [ha] using getCol_map_set_ne r h
  · have ha2 : r.any (fun kv => kv.1 == c) = false := Bool.eq_false_iff.mpr ha
    simpa [ha2] using getCol_append_single_ne r h

/-- A GeoImageFrame: a tabular structure, each row a set of named columns.
It extends a geospatial dataframe with image-specific columns. -/
structure GeoImageFrame where
  rows : List Row
deriving DecidableEq, Repr

/-- The image-specific columns every GeoImageFrame must define: image URL,
capture geometry, and orientation (compass angle). -/
def requiredColumns : List String := ["image_url", "geometry", "orientation"]

/-- Whether a row defines every required column. -/
def hasRequiredColumns (r : Row) : Bool :=
  requiredColumns.all (fun c => (getCol r c).isSome)

/-- Modelled from the spec (missing `landlensdb/geoclasses/geoimageframe.py`):
the GeoImageFrame constructor accepts rows that define `image_url` and
`geometry`, and supplies a null `orientation` column when it is missing;
rows without an image URL or a geometry are rejected. -/
def mkGeoImageFrame (rows : List Row) : Option GeoImageFrame :=
  if rows.all (fun r => (getCol r "image_url").isSome && (getCol r "geometry").isSome) then
    some ⟨rows.map (fun r =>
      if (getCol r "orientation").isSome then r else setCol r "orientation" CellValue.null)⟩
  else none

/-- EXIF metadata carried by an image file: geotag (latitude/longitude),
capture timestamp and orientation. -/
structure ExifData where
  lat : ℚ
  lon : ℚ
  timestamp : Option String
  orientationAngle : Option ℚ
deriving DecidableEq, Repr

/-- A file of a local directory: its file name and, when the file carries a
readable EXIF geotag, its EXIF metadata. -/
structure LocalFile where
  fname : String
  exif : Option ExifData
deriving DecidableEq, Repr

/-- Whether one string ends with another (suffix test on the characters). -/
def endsWithStr (s suf : String) : Bool := suf.data.isSuffixOf s.data

/-- Whether a file name is that of a JPEG image. -/
def isJpegName (s : String) : Bool :=
  endsWithStr s ".jpg" || endsWithStr s ".jpeg" ||
    endsWithStr s ".JPG" || endsWithStr s ".JPEG"

/-- The timestamp cell built from an image's EXIF metadata. -/
def timestampCell (e : ExifData) : CellValue :=
  match e.timestamp with
  | some ts => CellValue.str ts
  | none => CellValue.null

/-- The orientation cell built from an image's EXIF metadata. -/
def orientationCell (e : ExifData) : CellValue :=
  match e.orientationAngle with
  | some o => CellValue.num o
  | none => CellValue.null

/-- The GeoImageFrame row built from a geotagged local image: geometry,
timestamp and orientation all come from the file's EXIF metadata. -/
def rowOfFile (dir : String) (f : LocalFile) (e : ExifData) : Row :=
  [("image_url", CellValue.str (dir ++ "/" ++ f.fname)),
   ("geometry", CellValue.pt ⟨e.lon, e.lat⟩),
   ("timestamp", timestampCell e),
   ("orientation", orientationCell e)]

/-- Modelled from the spec (missing `landlensdb/handlers/image.py`, class
`Local`): `load_images` scans a directory, keeps only JPEG files (the only
supported format), extracts the EXIF geotag, timestamp and orientation of
each geotagged JPEG, and returns a GeoImageFrame with one row per such
image. -/
def load_images (dir : String) (files : List LocalFile) : GeoImageFrame :=
  ⟨(files.filter (fun f => isJpegName f.fname)).filterMap
    (fun f => (f.exif).map (fun e => rowOfFile dir f e))⟩

/-- An image record returned by the Mapillary API. -/
structure MlyImage where
  mid : String
  captured_at : Option String
  compass_angle : Option ℚ
  thumb_1024_url : Option String
  geometry : GeoPoint
deriving DecidableEq, Repr

/-- A geographic bounding box: west, south, east, north. -/
structure BBox where
  west : ℚ
  south : ℚ
  east : ℚ
  north : ℚ
deriving DecidableEq, Repr

/-- Whether a point lies inside a bounding box. -/
def inBBox (b : BBox) (p : GeoPoint) : Bool :=
  decide (b.west ≤ p.x) && decide (p.x ≤ b.east) &&
    decide (b.south ≤ p.y) && decide (p.y ≤ b.north)

/-- The GeoImageFrame row built from a Mapillary image record. -/
def rowOfMly (img : MlyImage) : Row :=
  [("image_url", match img.thumb_1024_url with
     | some u => CellValue.str u
     | none => CellValue.null),
   ("geometry", CellValue.pt img.geometry),
   ("name", CellValue.str ("mly|" ++ img.mid)),
   ("orientation", match img.compass_angle with
     | some o => CellValue.num o
     | none => CellValue.null)]

/-- Modelled from the spec (missing `landlensdb/handlers/cloud.py`, class
`Mapillary`): `fetch_within_bbox` queries the API for the images whose
geometry lies inside the bounding box, and stops after `max_images` results
when that limit is given.  `available` stands for the image records the API
holds. -/
def fetch_within_bbox (available : List MlyImage) (b : BBox)
    (max_images : Option Nat) : GeoImageFrame :=
  let hits := available.filter (fun i => inBBox b i.geometry)
  let limited := match max_images with
    | some n => hits.take n
    | none => hits
  ⟨limited.map rowOfMly⟩

/-- Modelled from the spec (missing `landlensdb/process/snap.py`):
`snap_to_road_network` snaps every image point of the frame to the nearest
edge of the road network within the distance threshold, and stores the
result in a new `snapped_geometry` column; a point with no edge within the
threshold gets a null snapped geometry. -/
def snap_to_road_network (frame : GeoImageFrame) (threshold : ℚ)
    (network : List Edge) : GeoImageFrame :=
  ⟨frame.rows.map (fun r =>
    match getCol r "geometry" with
    | some (CellValue.pt p) =>
      (match snapPoint p threshold network with
        | some q => setCol r "snapped_geometry" (CellValue.pt q)
        | none => setCol r "snapped_geometry" CellValue.null)
    | _ => setCol r "snapped_geometry" CellValue.null)⟩

/-- A row of the PostGIS image table: the `image_url` key (on which the
table carries a uniqueness constraint) and the remaining columns. -/
structure DbRow where
  image_url : String
  payload : Row
deriving DecidableEq, Repr

/-- The image URLs of a table, in row order. -/
def urls (tbl : List DbRow) : List String :=
  tbl.map (fun r => r.image_url)

/-- The row of a table holding a given image URL, when one exists. -/
def findUrl : List DbRow → String → Option DbRow
  | [], _ => none
  | r :: rest, u => if r.image_url = u then some r else findUrl rest u

/-- The last row of a list carrying the given image URL, when one exists. -/
def lastWithUrl (u : String) : List DbRow → Option DbRow
  | [] => none
  | r :: rest =>
    match lastWithUrl u rest with
    | some x => some x
    | none => if r.image_url = u then some r else none

/-- The conflict policy of `upsert_images`: update conflicting records in
place, or skip them. -/
inductive Conflict where
  | update : Conflict
  | nothing : Conflict
deriving DecidableEq, Repr

/-- Write one row under the uniqueness constraint on `image_url`: update
the existing row in place when the URL is present, insert a new row
otherwise (SQL INSERT .. ON CONFLICT (image_url) DO UPDATE). -/
def insertOrUpdate (tbl : List DbRow) (r : DbRow) : List DbRow :=
  if r.image_url ∈ urls tbl then
    tbl.map (fun x => if x.image_url = r.image_url then r else x)
  else tbl ++ [r]

/-- Write one row under the uniqueness constraint on `image_url`: keep the
existing row untouched when the URL is present, insert a new row otherwise
(SQL INSERT .. ON CONFLICT (image_url) DO NOTHING). -/
def insertOrSkip (tbl : List DbRow) (r : DbRow) : List DbRow :=
  if r.image_url ∈ urls tbl then tbl else tbl ++ [r]

/-- Modelled from the spec (missing `landlensdb/handlers/db.py`, class
`Postgres`): `upsert_images` writes the frame's rows one after the other
into the table, keyed on the uniqueness constraint on `image_url`:
conflicting records are updated in place (`conflict=update`) or skipped
(`conflict=nothing`); absent URLs are inserted as new rows. -/
def upsert_images (conflict : Conflict) (frameRows : List DbRow)
    (tbl : List DbRow) : List DbRow :=
  frameRows.foldl (fun t r =>
    match conflict with
    | Conflict.update => insertOrUpdate t r
    | Conflict.nothing => insertOrSkip t r) tbl

/-- The `if_exists` policy of `to_postgis`: replace the table's contents,
or append to them. -/
inductive IfExists where
  | replace : IfExists
  | append : IfExists
deriving DecidableEq, Repr

/-- Modelled from the spec (missing `GeoImageFrame.to_postgis` in
`landlensdb/geoclasses/geoimageframe.py`): write the frame to the table.
The unique constraint on `image_url` is applied to the stored table, so a
write that would leave duplicate URLs fails, and the failed transaction
leaves the table unchanged.  `append` requires that the incoming rows not
conflict with any existing data. -/
def to_postgis (mode : IfExists) (frameRows : List DbRow)
    (tbl : List DbRow) : Except String (List DbRow) :=
  match mode with
  | IfExists.replace =>
    if (urls frameRows).Nodup then Except.ok frameRows
    else Except.error "duplicate image_url"
  | IfExists.append =>
    if (urls (tbl ++ frameRows)).Nodup then Except.ok (tbl ++ frameRows)
    else Except.error "duplicate image_url"

/-- A database write issued through the library: a `to_postgis` call or an
`upsert_images` call. -/
inductive DbOp where
  | toPostgis : IfExists → List DbRow → DbOp
  | upsert : Conflict → List DbRow → DbOp
deriving DecidableEq, Repr

/-- Apply one database write to the table; a failed `to_postgis`
transaction leaves the table unchanged. -/
def applyOp (tbl : List DbRow) : DbOp → List DbRow
  | DbOp.toPostgis mode rows =>
    match to_postgis mode rows tbl with
    | Except.ok t2 => t2
    | Except.error _ => tbl
  | DbOp.upsert conflict rows => upsert_images conflict rows tbl

/-- Run a sequence of database writes against the table. -/
def runOps (ops : List DbOp) (tbl : List DbRow) : List DbRow :=
  ops.foldl applyOp tbl

/-- One HTTP request of a multi-threaded fetch or download: the outcome of
its successive attempts (`none` is a failed attempt, `some a` a response). -/
structure Request (α : Type) where
  attempts : List (Option α)
deriving DecidableEq, Repr

/-- Modelled from the spec (missing retry logic of
`landlensdb/handlers/cloud.py`): issue one request, retrying failed
attempts, up to `maxAttempts` attempts in total; `none` when every allowed
attempt fails. -/
def attemptWithRetries {α : Type} : Nat → List (Option α) → Option α
  | 0, _ => none
  | _ + 1, [] => none
  | n + 1, o :: rest =>
    match o with
    | some a => some a
    | none => attemptWithRetries n rest

/-- Modelled from the spec (missing `fetch_within_bbox` /
`download_images_to_local` worker-pool bodies in
`landlensdb/handlers/cloud.py` and
`landlensdb/geoclasses/geoimageframe.py`): perform every request with
retries; a request that still fails after retries is logged and skipped,
and the operation returns the results of all successful requests. -/
def runRequests {α : Type} (maxAttempts : Nat) (reqs : List (Request α)) : List α :=
  reqs.filterMap (fun r => attemptWithRetries maxAttempts r.attempts)

/-- One worker of the pool: it processes its queue of requests on its own,
with no shared mutable state (`process` is a pure function of one
request). -/
def workerRun {α β : Type} (process : α → β) (queue : List α) : List β :=
  queue.map process

/-- Modelled from the spec (missing thread-pool code of
`landlensdb/handlers/cloud.py`): the pool assigns the requests to a fixed
number of workers (`queues`, one per worker); each worker processes its
queue independently and the pool concatenates whatever the workers
produce, in no guaranteed order. -/
def poolRun {α β : Type} (process : α → β) (queues : List (List α)) : List β :=
  (queues.map (workerRun process)).flatten

theorem urls_insertOrUpdate (tbl : List DbRow) (r : DbRow) :
    urls (insertOrUpdate tbl r) =
      if r.image_url ∈ urls tbl then urls tbl else urls tbl ++ [r.image_url] := by
  unfold insertOrUpdate
  by_cases hmem : r.image_url ∈ urls tbl
  · rw [if_pos hmem, if_pos hmem]
    unfold urls
    rw [List.map_map]
    apply List.map_congr_left
    intro x _
    by_cases hx : x.image_url = r.image_url
    · simp [Function.comp, hx]
    · simp [Function.comp, hx]
  · rw [if_neg hmem, if_neg hmem]
    simp [urls]

theorem nodup_insertOrUpdate {tbl : List DbRow} (r : DbRow)
    (h : (urls tbl).Nodup) : (urls (insertOrUpdate tbl r)).Nodup := by
  rw [urls_insertOrUpdate]
  by_cases hmem : r.image_url ∈ urls tbl
  · simpa [hmem] using h
  · simp only [hmem, if_neg, not_false_iff]
    simp [List.nodup_append, h, hmem]

theorem nodup_insertOrSkip {tbl : List DbRow} (r : DbRow)
    (h : (urls tbl).Nodup) : (urls (insertOrSkip tbl r)).Nodup := by
  unfold insertOrSkip
  by_cases hmem : r.image_url ∈ urls tbl
  · simpa [hmem] using h
  · simp only [hmem, if_neg, not_false_iff]
    simp [urls, List.nodup_append, List.nodup_map_iff, hmem]
    constructor
    · exact h
    · simpa [urls] using hmem

theorem nodup_upsert (conflict : Conflict) (frameRows : List DbRow) :
    ∀ {tbl : List DbRow}, (urls tbl).Nodup →
      (urls (upsert_images conflict frameRows tbl)).Nodup := by
  induction frameRows with
  | nil => intro tbl h; simpa [upsert_images] using h
  | cons r rest ih =>
    intro tbl h
    cases conflict with
    | update => exact ih (nodup_insertOrUpdate r h)
    | nothing => exact ih (nodup_insertOrSkip r h)

theorem nodup_applyOp {tbl : List DbRow} (op : DbOp)
    (h : (urls tbl).Nodup) : (urls (applyOp tbl op)).Nodup := by
  cases op with
  | toPostgis mode rows =>
    cases mode with
    | replace =>
      by_cases hn : (urls rows).Nodup
      · simp only [applyOp, to_postgis, if_pos hn]
        exact hn
      · simp only [applyOp, to_postgis, if_neg hn]
        exact h
    | append =>
      by_cases hn : (urls (tbl ++ rows)).Nodup
      · simp only [applyOp, to_postgis, if_pos hn]
        exact hn
      · simp only [applyOp, to_postgis, if_neg hn]
        exact h
  | upsert conflict rows => exact nodup_upsert conflict rows h

theorem nodup_runOps (ops : List DbOp) :
    ∀ {tbl : List DbRow}, (urls tbl).Nodup → (urls (runOps ops tbl)).Nodup := by
  induction ops with
  | nil => intro tbl h; simpa [runOps] using h
  | cons op rest ih =>
    intro tbl h
    exact ih (nodup_applyOp op h)

theorem findUrl_eq_none_of_not_mem : ∀ {tbl : List DbRow} {u : String},
    u ∉ urls tbl → findUrl tbl u = none := by
  intro tbl
  induction tbl with
  | nil => intro u _; rfl
  | cons x xs ih =>
    intro u h
    simp only [urls, List.map_cons, List.mem_cons] at h
    push_neg at h
    have hx : ¬ x.image_url = u := fun hc => h.1 hc.symm
    simp only [findUrl, if_neg hx]
    exact ih h.2

theorem findUrl_map_update (r : DbRow) (u : String) : ∀ tbl : List DbRow,
    findUrl (tbl.map (fun x => if x.image_url = r.image_url then r else x)) u =
      if u = r.image_url then (if r.image_url ∈ urls tbl then some r else none)
      else findUrl tbl u := by
  intro tbl
  induction tbl with
  | nil => by_cases hu : u = r.image_url <;> simp [findUrl, urls, hu]
  | cons x xs ih =>
    simp only [List.map_cons]
    by_cases hx : x.image_url = r.image_url
    · rw [if_pos hx]
      by_cases hu : u = r.image_url
      · have hmem : r.image_url ∈ urls (x :: xs) := by
          simp only [urls, List.map_cons, List.mem_cons]
          exact Or.inl hx.symm
        rw [if_pos hu, if_pos hmem]
        simp [findUrl, hu]
      · have hxu : ¬ x.image_url = u := fun hc => hu ((hx.symm.trans hc).symm)
        have hru : ¬ r.image_url = u := fun hc => hu hc.symm
        simp only [findUrl, if_neg hxu, if_neg hru]
        rw [ih, if_neg hu, if_neg hu]
    · rw [if_neg hx]
      by_cases hu : u = r.image_url
      · have hxu : ¬ x.image_url = u := fun hc => hx (hc.trans hu)
        have hiff : (r.image_url ∈ urls (x :: xs)) ↔ (r.image_url ∈ urls xs) := by
          simp only [urls, List.map_cons, List.mem_cons]
          constructor
          · rintro (h | h)
            · exact absurd h.symm hx
            · exact h
          · exact Or.inr
        simp only [findUrl, if_neg hxu]
        rw [ih, if_pos hu, if_pos hu]
        by_cases hm : r.image_url ∈ urls xs
        · rw [if_pos hm, if_pos (hiff.mpr hm)]
        · rw [if_neg hm, if_neg (fun hc => hm (hiff.mp hc))]
      · by_cases hxu : x.image_url = u
        · simp only [findUrl, if_pos hxu]
          rw [if_neg hu]
        · simp only [findUrl, if_neg hxu]
          rw [ih, if_neg hu, if_neg hu]

theorem findUrl_append_single (r : DbRow) (u : String) : ∀ tbl : List DbRow,
    findUrl (tbl ++ [r]) u =
      match findUrl tbl u with
      | some x => some x
      | none => if r.image_url = u then some r else none := by
  intro tbl
  induction tbl with
  | nil => rfl
  | cons x xs ih =>
    by_cases hxu : x.image_url = u
    · simp [findUrl, hxu]
    · simp only [List.cons_append, findUrl, if_neg hxu]
      exact ih

theorem findUrl_insertOrUpdate (tbl : List DbRow) (r : DbRow) (u : String) :
    findUrl (insertOrUpdate tbl r) u =
      if u = r.image_url then some r else findUrl tbl u := by
  unfold insertOrUpdate
  by_cases hmem : r.image_url ∈ urls tbl
  · rw [if_pos hmem, findUrl_map_update]
    by_cases hu : u = r.image_url
    · rw [if_pos hu, if_pos (hu ▸ hmem), if_pos hu]
    · rw [if_neg hu, if_neg hu]
  · rw [if_neg hmem, findUrl_append_single]
    by_cases hu : u = r.image_url
    · have hnone : findUrl tbl u = none := findUrl_eq_none_of_not_mem (hu ▸ hmem)
      rw [hnone, if_pos hu]
      show (if r.image_url = u then some r else none) = some r
      rw [if_pos hu.symm]
    · rw [if_neg hu]
      cases hfind : findUrl tbl u with
      | none =>
        show (if r.image_url = u then some r else none) = none
        rw [if_neg (fun hc => hu hc.symm)]
      | some x => rfl

theorem findUrl_upsert_update (frameRows : List DbRow) (u : String) :
    ∀ tbl : List DbRow,
      findUrl (upsert_images Conflict.update frameRows tbl) u =
        match lastWithUrl u frameRows with
        | some x => some x
        | none => findUrl tbl u := by
  induction frameRows with
  | nil => intro tbl; simp [upsert_images, lastWithUrl]
  | cons r rest ih =>
    intro tbl
    have step : upsert_images Conflict.update (r :: rest) tbl =
        upsert_images Conflict.update rest (insertOrUpdate tbl r) := rfl
    rw [step, ih (insertOrUpdate tbl r)]
    cases hlast : lastWithUrl u rest with
    | some x => simp [lastWithUrl, hlast]
    | none =>
      rw [findUrl_insertOrUpdate]
      have hcons : lastWithUrl u (r :: rest) =
          if r.image_url = u then some r else none := by
        simp [lastWithUrl, hlast]
      rw [hcons]
      by_cases hu : u = r.image_url
      · rw [if_pos hu, if_pos hu.symm]
      · rw [if_neg hu, if_neg (fun hc => hu hc.symm)]

theorem mem_urls_insertOrUpdate (tbl : List DbRow) (r : DbRow) (u : String) :
    u ∈ urls (insertOrUpdate tbl r) ↔ u = r.image_url ∨ u ∈ urls tbl := by
  rw [urls_insertOrUpdate]
  by_cases hmem : r.image_url ∈ urls tbl
  · simp only [hmem, if_pos]
    constructor
    · exact Or.inr
    · rintro (h | h)
      · exact h ▸ hmem
      · exact h
  · simp only [hmem, if_neg, not_false_iff, List.mem_append, List.mem_singleton]
    tauto

theorem mem_urls_upsert_update (frameRows : List DbRow) (u : String) :
    ∀ tbl : List DbRow,
      u ∈ urls (upsert_images Conflict.update frameRows tbl) ↔
        u ∈ urls frameRows ∨ u ∈ urls tbl := by
  induction frameRows with
  | nil => intro tbl; simp [upsert_images, urls]
  | cons r rest ih =>
    intro tbl
    have step : upsert_images Conflict.update (r :: rest) tbl =
        upsert_images Conflict.update rest (insertOrUpdate tbl r) := rfl
    rw [step, ih (insertOrUpdate tbl r), mem_urls_insertOrUpdate]
    simp only [urls, List.map_cons, List.mem_cons]
    tauto

/-- C1: for every image point snapped by `snap_to_road_network` with a given
road network and distance threshold, the snapped location is the projection
of that point onto the nearest edge of the road-network graph (no other
edge of the network is closer to the point), and the result is stored in a
new column of the GeoImageFrame named `snapped_geometry`. -/
theorem snap_to_road_network_nearest_projection
    (frame : GeoImageFrame) (threshold : ℚ) (network : List Edge)
    (i : Nat) (r : Row) (p q : GeoPoint)
    (hr : frame.rows[i]? = some r)
    (hp : getCol r "geometry" = some (CellValue.pt p))
    (hq : snapPoint p threshold network = some q) :
    (∃ r2, (snap_to_road_network frame threshold network).rows[i]? = some r2 ∧
      getCol r2 "snapped_geometry" = some (CellValue.pt q)) ∧
    ∃ e ∈ network, q = projectOntoEdge p e ∧
      ∀ e2 ∈ network, edgeDistSq p e ≤ edgeDistSq p e2 := by
  constructor
  · refine ⟨setCol r "snapped_geometry" (CellValue.pt q), ?_, ?_⟩
    · unfold snap_to_road_network
      simp only [List.getElem?_map, hr, Option.map_some']
      simp only [hp, hq]
    · exact getCol_setCol_self r _ _
  · obtain ⟨e, hmem, hproj, _, hmin⟩ := snapPoint_spec hq
    exact ⟨e, hmem, hproj, hmin⟩

/-- C1 witness: a concrete frame, network and threshold on which the
theorem applies. -/
theorem snap_to_road_network_nearest_projection_witness :
    (∃ r2, (snap_to_road_network
        ⟨[[("image_url", CellValue.str "u"), ("geometry", CellValue.pt ⟨1, 1⟩)]]⟩
        100 [⟨⟨0, 0⟩, ⟨2, 0⟩⟩]).rows[0]? = some r2 ∧
      getCol r2 "snapped_geometry" = some (CellValue.pt ⟨1, 0⟩)) ∧
    ∃ e ∈ [(⟨⟨0, 0⟩, ⟨2, 0⟩⟩ : Edge)], (⟨1, 0⟩ : GeoPoint) = projectOntoEdge ⟨1, 1⟩ e ∧
      ∀ e2 ∈ [(⟨⟨0, 0⟩, ⟨2, 0⟩⟩ : Edge)],
        edgeDistSq ⟨1, 1⟩ e ≤ edgeDistSq ⟨1, 1⟩ e2 :=
  snap_to_road_network_nearest_projection
    ⟨[[("image_url", CellValue.str "u"), ("geometry", CellValue.pt ⟨1, 1⟩)]]⟩
    100 [⟨⟨0, 0⟩, ⟨2, 0⟩⟩] 0
    [("image_url", CellValue.str "u"), ("geometry", CellValue.pt ⟨1, 1⟩)]
    ⟨1, 1⟩ ⟨1, 0⟩ rfl rfl
    (by norm_num [snapPoint, nearestEdge, edgeDistSq, distSq, projectOntoEdge])

/-- C4: snapping only applies within the distance threshold: a point whose
distance to every edge of the road network exceeds the threshold receives
no snapped location from the network (its `snapped_geometry` is null). -/
theorem snap_to_road_network_respects_threshold
    (frame : GeoImageFrame) (threshold : ℚ) (network : List Edge)
    (i : Nat) (r : Row) (p : GeoPoint)
    (hr : frame.rows[i]? = some r)
    (hp : getCol r "geometry" = some (CellValue.pt p))
    (hfar : ∀ e ∈ network, threshold ^ 2 < edgeDistSq p e) :
    snapPoint p threshold network = none ∧
    (snap_to_road_network frame threshold network).rows[i]? =
      some (setCol r "snapped_geometry" CellValue.null) ∧
    getCol (setCol r "snapped_geometry" CellValue.null) "snapped_geometry" =
      some CellValue.null := by
  have hnone := snapPoint_none_of_far hfar
  refine ⟨hnone, ?_, getCol_setCol_self r _ _⟩
  unfold snap_to_road_network
  simp only [List.getElem?_map, hr, Option.map_some']
  simp only [hp, hnone]

/-- C4 witness: a concrete point farther than the threshold from every edge
of a concrete network. -/
theorem snap_to_road_network_respects_threshold_witness :
    snapPoint ⟨100, 100⟩ 1 [⟨⟨0, 0⟩, ⟨2, 0⟩⟩] = none ∧
    (snap_to_road_network
        ⟨[[("image_url", CellValue.str "u"), ("geometry", CellValue.pt ⟨100, 100⟩)]]⟩
        1 [⟨⟨0, 0⟩, ⟨2, 0⟩⟩]).rows[0]? =
      some (setCol [("image_url", CellValue.str "u"),
        ("geometry", CellValue.pt ⟨100, 100⟩)] "snapped_geometry" CellValue.null) ∧
    getCol (setCol [("image_url", CellValue.str "u"),
        ("geometry", CellValue.pt ⟨100, 100⟩)] "snapped_geometry" CellValue.null)
      "snapped_geometry" = some CellValue.null :=
  snap_to_road_network_respects_threshold
    ⟨[[("image_url", CellValue.str "u"), ("geometry", CellValue.pt ⟨100, 100⟩)]]⟩
    1 [⟨⟨0, 0⟩, ⟨2, 0⟩⟩] 0
    [("image_url", CellValue.str "u"), ("geometry", CellValue.pt ⟨100, 100⟩)]
    ⟨100, 100⟩ rfl rfl
    (by norm_num [edgeDistSq, distSq, projectOntoEdge])

/-- C10: `snap_to_road_network` does not modify the original geometry
column: the snapped location goes to the separate `snapped_geometry`
column, and the pre-existing `geometry` column's value of every row is
unchanged. -/
theorem snap_to_road_network_preserves_geometry
    (frame : GeoImageFrame) (threshold : ℚ) (network : List Edge)
    (i : Nat) (r : Row) (hr : frame.rows[i]? = some r) :
    ∃ r2, (snap_to_road_network frame threshold network).rows[i]? = some r2 ∧
      getCol r2 "geometry" = getCol r "geometry" := by
  have hne : "snapped_geometry" ≠ "geometry" := by decide
  unfold snap_to_road_network
  simp only [List.getElem?_map, hr, Option.map_some']
  refine ⟨_, rfl, ?_⟩
  cases hg : getCol r "geometry" with
  | none => simp only [hg]; exact (getCol_setCol_ne r _ hne).trans hg
  | some v =>
    cases v with
    | pt p =>
      simp only [hg]
      cases hsp : snapPoint p threshold network with
      | none => simp only [hsp]; exact (getCol_setCol_ne r _ hne).trans hg
      | some q => simp only [hsp]; exact (getCol_setCol_ne r _ hne).trans hg
    | str s => simp only [hg]; exact (getCol_setCol_ne r _ hne).trans hg
    | num n => simp only [hg]; exact (getCol_setCol_ne r _ hne).trans hg
    | null => simp only [hg]; exact (getCol_setCol_ne r _ hne).trans hg

/-- C10 witness: the geometry column of a concrete row is unchanged by
snapping. -/
theorem snap_to_road_network_preserves_geometry_witness :
    ∃ r2, (snap_to_road_network
        ⟨[[("image_url", CellValue.str "u"), ("geometry", CellValue.pt ⟨1, 1⟩)]]⟩
        100 [⟨⟨0, 0⟩, ⟨2, 0⟩⟩]).rows[0]? = some r2 ∧
      getCol r2 "geometry" =
        getCol [("image_url", CellValue.str "u"),
          ("geometry", CellValue.pt ⟨1, 1⟩)] "geometry" :=
  snap_to_road_network_preserves_geometry
    ⟨[[("image_url", CellValue.str "u"), ("geometry", CellValue.pt ⟨1, 1⟩)]]⟩
    100 [⟨⟨0, 0⟩, ⟨2, 0⟩⟩] 0
    [("image_url", CellValue.str "u"), ("geometry", CellValue.pt ⟨1, 1⟩)] rfl

/-- C5: a GeoImageFrame extends a geospatial dataframe with image-specific
columns — image URL, capture geometry, and orientation — and every frame
produced by the library's constructor and loaders defines these required
columns (construction enforces or supplies them). -/
theorem geoimageframe_required_columns :
    (∀ rows frame, mkGeoImageFrame rows = some frame →
      ∀ r ∈ frame.rows, hasRequiredColumns r = true) ∧
    (∀ dir files, ∀ r ∈ (load_images dir files).rows, hasRequiredColumns r = true) ∧
    (∀ available b m, ∀ r ∈ (fetch_within_bbox available b m).rows,
      hasRequiredColumns r = true) := by
  refine ⟨?_, ?_, ?_⟩
  · intro rows frame h r hr
    unfold mkGeoImageFrame at h
    by_cases hall : rows.all
        (fun r => (getCol r "image_url").isSome && (getCol r "geometry").isSome) = true
    · rw [if_pos hall] at h
      simp only [Option.some.injEq] at h
      subst h
      simp only [List.mem_map] at hr
      obtain ⟨r0, hr0, hgr⟩ := hr
      have hreq := (List.all_eq_true.mp hall) r0 hr0
      simp only [Bool.and_eq_true] at hreq
      obtain ⟨hurl, hgeom⟩ := hreq
      by_cases ho : (getCol r0 "orientation").isSome = true
      · rw [if_pos ho] at hgr
        subst hgr
        simp only [hasRequiredColumns, requiredColumns, List.all_cons, List.all_nil,
          Bool.and_eq_true, Bool.and_true]
        exact ⟨hurl, hgeom, ho⟩
      · rw [if_neg ho] at hgr
        subst hgr
        simp only [hasRequiredColumns, requiredColumns, List.all_cons, List.all_nil,
          Bool.and_eq_true, Bool.and_true]
        refine ⟨?_, ?_, ?_⟩
        · rw [getCol_setCol_ne r0 _ (by decide)]
          exact hurl
        · rw [getCol_setCol_ne r0 _ (by decide)]
          exact hgeom
        · rw [getCol_setCol_self]
          rfl
    · rw [if_neg hall] at h
      exact absurd h (by simp)
  · intro dir files r hr
    simp only [load_images] at hr
    obtain ⟨f, _, hfr⟩ := List.mem_filterMap.mp hr
    obtain ⟨e, _, heq⟩ := Option.map_eq_some'.mp hfr
    subst heq
    rfl
  · intro available b m r hr
    unfold fetch_within_bbox at hr
    simp only [List.mem_map] at hr
    obtain ⟨img, _, heq⟩ := hr
    subst heq
    rfl

/-- C5 witness: a concrete row accepted by the constructor, whose frame
defines every required column. -/
theorem geoimageframe_required_columns_witness :
    mkGeoImageFrame [[("image_url", CellValue.str "u"),
        ("geometry", CellValue.pt ⟨0, 0⟩), ("orientation", CellValue.num 0)]] =
      some ⟨[[("image_url", CellValue.str "u"),
        ("geometry", CellValue.pt ⟨0, 0⟩), ("orientation", CellValue.num 0)]]⟩ ∧
    hasRequiredColumns [("image_url", CellValue.str "u"),
      ("geometry", CellValue.pt ⟨0, 0⟩), ("orientation", CellValue.num 0)] = true :=
  ⟨rfl,
    geoimageframe_required_columns.1
      [[("image_url", CellValue.str "u"),
        ("geometry", CellValue.pt ⟨0, 0⟩), ("orientation", CellValue.num 0)]]
      ⟨[[("image_url", CellValue.str "u"),
        ("geometry", CellValue.pt ⟨0, 0⟩), ("orientation", CellValue.num 0)]]⟩
      rfl
      [("image_url", CellValue.str "u"),
        ("geometry", CellValue.pt ⟨0, 0⟩), ("orientation", CellValue.num 0)]
      (List.mem_singleton.mpr rfl)⟩

/-- C6 counterexample: a geotagged image file that is not a JPEG gets no
row at all, so the claim as stated (every geotagged image of the source
directory yields a row) fails: the returned frame is empty although the
directory holds a geotagged image. -/
theorem load_images_geotagged_non_jpeg_dropped :
    (LocalFile.mk "photo.tif"
        (some (ExifData.mk 35 139 (some "2020-01-01") (some 90)))).exif.isSome = true ∧
    (load_images "dir"
        [LocalFile.mk "photo.tif"
          (some (ExifData.mk 35 139 (some "2020-01-01") (some 90)))]).rows = [] :=
  ⟨rfl, rfl⟩

/-- C6 (amended: restricted to geotagged JPEG images, the only format
`load_images` supports): for every geotagged JPEG image of the source
directory, the returned GeoImageFrame contains a row whose geometry,
timestamp, and orientation come from that image's EXIF metadata. -/
theorem load_images_extracts_exif
    (dir : String) (files : List LocalFile) (f : LocalFile) (e : ExifData)
    (hf : f ∈ files) (hjpeg : isJpegName f.fname = true) (he : f.exif = some e) :
    rowOfFile dir f e ∈ (load_images dir files).rows ∧
    getCol (rowOfFile dir f e) "geometry" = some (CellValue.pt ⟨e.lon, e.lat⟩) ∧
    getCol (rowOfFile dir f e) "timestamp" = some (timestampCell e) ∧
    getCol (rowOfFile dir f e) "orientation" = some (orientationCell e) := by
  refine ⟨?_, rfl, rfl, rfl⟩
  exact List.mem_filterMap.mpr
    ⟨f, List.mem_filter.mpr ⟨hf, hjpeg⟩, by rw [he]; rfl⟩

/-- C6 witness: a concrete geotagged JPEG whose EXIF metadata lands in the
returned frame. -/
theorem load_images_extracts_exif_witness :
    rowOfFile "d" (LocalFile.mk "a.jpg" (some (ExifData.mk 35 139 (some "2020") (some 90))))
        (ExifData.mk 35 139 (some "2020") (some 90)) ∈
      (load_images "d"
        [LocalFile.mk "a.jpg" (some (ExifData.mk 35 139 (some "2020") (some 90)))]).rows ∧
    getCol (rowOfFile "d"
        (LocalFile.mk "a.jpg" (some (ExifData.mk 35 139 (some "2020") (some 90))))
        (ExifData.mk 35 139 (some "2020") (some 90))) "geometry" =
      some (CellValue.pt ⟨139, 35⟩) ∧
    getCol (rowOfFile "d"
        (LocalFile.mk "a.jpg" (some (ExifData.mk 35 139 (some "2020") (some 90))))
        (ExifData.mk 35 139 (some "2020") (some 90))) "timestamp" =
      some (timestampCell (ExifData.mk 35 139 (some "2020") (some 90))) ∧
    getCol (rowOfFile "d"
        (LocalFile.mk "a.jpg" (some (ExifData.mk 35 139 (some "2020") (some 90))))
        (ExifData.mk 35 139 (some "2020") (some 90))) "orientation" =
      some (orientationCell (ExifData.mk 35 139 (some "2020") (some 90))) :=
  load_images_extracts_exif "d"
    [LocalFile.mk "a.jpg" (some (ExifData.mk 35 139 (some "2020") (some 90)))]
    (LocalFile.mk "a.jpg" (some (ExifData.mk 35 139 (some "2020") (some 90))))
    (ExifData.mk 35 139 (some "2020") (some 90))
    (List.mem_singleton.mpr rfl) rfl rfl

/-- C9: `load_images` loads only JPEG images: every row of the returned
GeoImageFrame originates from a JPEG file of the source directory, so no
row is produced for a file that is not a JPEG image. -/
theorem load_images_only_jpeg
    (dir : String) (files : List LocalFile) (r : Row)
    (hr : r ∈ (load_images dir files).rows) :
    ∃ f ∈ files, isJpegName f.fname = true ∧
      ∃ e, f.exif = some e ∧ r = rowOfFile dir f e := by
  simp only [load_images] at hr
  obtain ⟨f, hff, hfr⟩ := List.mem_filterMap.mp hr
  obtain ⟨hf, hjpeg⟩ := List.mem_filter.mp hff
  obtain ⟨e, he, heq⟩ := Option.map_eq_some'.mp hfr
  exact ⟨f, hf, hjpeg, e, he, heq.symm⟩

/-- C9 witness: the theorem applied to the single row a concrete JPEG
directory produces. -/
theorem load_images_only_jpeg_witness :
    ∃ f ∈ [LocalFile.mk "a.jpg" (some (ExifData.mk 35 139 none none))],
      isJpegName f.fname = true ∧
      ∃ e, f.exif = some e ∧
        rowOfFile "d" (LocalFile.mk "a.jpg" (some (ExifData.mk 35 139 none none)))
            (ExifData.mk 35 139 none none) =
          rowOfFile "d" f e :=
  load_images_only_jpeg "d"
    [LocalFile.mk "a.jpg" (some (ExifData.mk 35 139 none none))]
    (rowOfFile "d" (LocalFile.mk "a.jpg" (some (ExifData.mk 35 139 none none)))
      (ExifData.mk 35 139 none none))
    (List.mem_filterMap.mpr
      ⟨LocalFile.mk "a.jpg" (some (ExifData.mk 35 139 none none)),
        List.mem_filter.mpr ⟨List.mem_singleton.mpr rfl, rfl⟩, rfl⟩)

/-- C8: every call to `fetch_within_bbox` with `max_images` equal to `n`
returns a frame of at most `n` images. -/
theorem fetch_within_bbox_max_images
    (available : List MlyImage) (b : BBox) (n : Nat) :
    (fetch_within_bbox available b (some n)).rows.length ≤ n := by
  have hrows : (fetch_within_bbox available b (some n)).rows =
      ((available.filter (fun i => inBBox b i.geometry)).take n).map rowOfMly := rfl
  rw [hrows, List.length_map, List.length_take]
  exact min_le_left _ _

/-- C2: `upsert_images` is an insert-or-update write keyed on the
uniqueness constraint on image URL: a frame row whose URL already exists
updates the existing table row in place, a frame row with a new URL is
inserted, and after any sequence of `to_postgis` and `upsert_images`
writes the table never holds two rows with the same image URL. -/
theorem upsert_images_keyed_on_url :
    (∀ (frameRows tbl : List DbRow) (u : String),
      findUrl (upsert_images Conflict.update frameRows tbl) u =
        match lastWithUrl u frameRows with
        | some x => some x
        | none => findUrl tbl u) ∧
    (∀ (frameRows tbl : List DbRow) (u : String),
      u ∈ urls (upsert_images Conflict.update frameRows tbl) ↔
        u ∈ urls frameRows ∨ u ∈ urls tbl) ∧
    (∀ (ops : List DbOp) (tbl : List DbRow),
      (urls tbl).Nodup → (urls (runOps ops tbl)).Nodup) := by
  refine ⟨?_, ?_, ?_⟩
  · intro frameRows tbl u
    exact findUrl_upsert_update frameRows u tbl
  · intro frameRows tbl u
    exact mem_urls_upsert_update frameRows u tbl
  · intro ops tbl h
    exact nodup_runOps ops h

/-- C2 witness: a concrete sequence of `to_postgis` and `upsert_images`
writes on an initially empty table keeps URLs unique. -/
theorem upsert_images_keyed_on_url_witness :
    (urls (runOps
      [DbOp.toPostgis IfExists.replace [⟨"u1", []⟩],
        DbOp.upsert Conflict.update [⟨"u1", [("name", CellValue.str "n")]⟩, ⟨"u2", []⟩],
        DbOp.toPostgis IfExists.append [⟨"u3", []⟩],
        DbOp.upsert Conflict.nothing [⟨"u2", []⟩]]
      [])).Nodup :=
  upsert_images_keyed_on_url.2.2
    [DbOp.toPostgis IfExists.replace [⟨"u1", []⟩],
      DbOp.upsert Conflict.update [⟨"u1", [("name", CellValue.str "n")]⟩, ⟨"u2", []⟩],
      DbOp.toPostgis IfExists.append [⟨"u3", []⟩],
      DbOp.upsert Conflict.nothing [⟨"u2", []⟩]]
    [] (by simp [urls])

/-- C3: during multi-threaded fetch and download, each HTTP request that
fails is retried; a request that still fails after all allowed attempts is
skipped without aborting the operation, which still returns the results of
all successful requests. -/
theorem requests_retried_failures_skipped :
    (∀ (α : Type) (n : Nat) (a : α) (rest : List (Option α)),
      attemptWithRetries (n + 2) (none :: some a :: rest) = some a) ∧
    (∀ (α : Type) (maxAttempts : Nat) (xs : List (Request α)) (r : Request α)
        (ys : List (Request α)),
      attemptWithRetries maxAttempts r.attempts = none →
      runRequests maxAttempts (xs ++ r :: ys) =
        runRequests maxAttempts xs ++ runRequests maxAttempts ys) ∧
    (∀ (α : Type) (maxAttempts : Nat) (reqs : List (Request α)) (r : Request α) (a : α),
      r ∈ reqs → attemptWithRetries maxAttempts r.attempts = some a →
      a ∈ runRequests maxAttempts reqs) := by
  refine ⟨?_, ?_, ?_⟩
  · intro α n a rest
    rfl
  · intro α maxAttempts xs r ys h
    simp [runRequests, List.filterMap_append, List.filterMap_cons, h]
  · intro α maxAttempts reqs r a hmem h
    exact List.mem_filterMap.mpr ⟨r, hmem, h⟩

/-- C3 witness: a request failing once and succeeding on retry, a request
failing every attempt being skipped without losing the others, and a
successful request's result being returned. -/
theorem requests_retried_failures_skipped_witness :
    attemptWithRetries 3 (none :: some 7 :: []) = some 7 ∧
    runRequests 2 ([(⟨[some 1]⟩ : Request Nat)] ++
        (⟨[none, none]⟩ : Request Nat) :: [(⟨[some 2]⟩ : Request Nat)]) =
      runRequests 2 [(⟨[some 1]⟩ : Request Nat)] ++
        runRequests 2 [(⟨[some 2]⟩ : Request Nat)] ∧
    (1 : Nat) ∈ runRequests 2 [(⟨[some 1]⟩ : Request Nat)] :=
  ⟨requests_retried_failures_skipped.1 Nat 1 7 [],
    requests_retried_failures_skipped.2.1 Nat 2 [⟨[some 1]⟩] ⟨[none, none]⟩
      [⟨[some 2]⟩] rfl,
    requests_retried_failures_skipped.2.2 Nat 2 [⟨[some 1]⟩] ⟨[some 1]⟩ 1
      (List.mem_singleton.mpr rfl) rfl⟩

/-- C7: the multi-threaded fetch/download routines run a worker pool with a
fixed worker count over independent requests with no shared mutable state:
each worker is a pure function of its own queue, and however the requests
are assigned to the `max_workers` workers, the pool's output is the
sequential output up to reordering (no ordering guarantee on results). -/
theorem poolRun_perm_of_assignment {α β : Type} (process : α → β)
    (max_workers : Nat) (queues : List (List α)) (tasks : List α)
    (hw : queues.length = max_workers)
    (hassign : queues.flatten.Perm tasks) :
    (poolRun process queues).Perm (tasks.map process) := by
  have h1 : poolRun process queues = queues.flatten.map process := by
    unfold poolRun workerRun
    exact (List.map_flatten ..).symm
  rw [h1]
  exact hassign.map process

/-- C7 witness: two workers splitting three tasks produce a permutation of
the sequential result. -/
theorem poolRun_perm_of_assignment_witness :
    (poolRun Nat.succ [[1], [2, 3]]).Perm ([2, 1, 3].map Nat.succ) :=
  poolRun_perm_of_assignment Nat.succ 2 [[1], [2, 3]] [2, 1, 3] rfl (by decide)

end Landlensdb
